import Mathlib

/-!
Shallow embedding of the UUIDv7 value-composition engine of `uuid7.py`:
timestamp normalization, the two monotonic counter strategies, the
process-wide counter state and the payload bit packing.  The random source
is modelled as an infinite stream `g : Nat → Nat` consumed at an explicit
index: a draw of `n` random bits at index `i` is `g i % 2 ^ n`.  Failures
(Python assertion errors, TypeError, ValueError) are modelled with
`Except Err`; the store and the stream index are threaded through every
function so that the state left behind by a failing call is observable.
-/

namespace UUID7

/-- Reasons for a configuration rejection, one per validation assert of
`_compose_uuid`. -/
inductive ConfigReason where
  | invalidFractionBits
  | invalidCounterBitsMonoGuard
  | randomRequired
  | invalidCounterBitsRecommended
  | invalidCounterBits
  | invalidGuardSeed
  | counterRequired
  | invalidCounterStep
  | counterBitsRequired
  | invalidCounterValue
  | invalidRandomValue
  deriving DecidableEq

/-- Error taxonomy of the engine. -/
inductive Err where
  | configError (reason : ConfigReason)
  | timestampsNotMonotonic
  | monotonicityViolation
  | counterOverflow
  | missingCounterGuard
  | invalidTimestampType
  | internalInvariant
  | valueError
  | rangeError
  deriving DecidableEq

/-- Timestamp argument shapes accepted by `_normalize_timestamp`.  The
datetime, fractional-seconds and ISO-text branches go through floating
point in the source (the value `floor(seconds * 1000 * 4096)`); each is
modelled by the integer that floor computation produced, since floating
point is outside the embedding.  `other` stands for a value of any
unsupported type. -/
inductive TsInput where
  | absent
  | nanos (ns : Int)
  | instant (floorVal : Int)
  | seconds (floorVal : Int)
  | text (floorVal : Int)
  | other
  deriving DecidableEq

instance {ε α : Type} [DecidableEq ε] [DecidableEq α] :
    DecidableEq (Except ε α) := fun x y =>
  match x, y with
  | .ok a, .ok b =>
    if h : a = b then .isTrue (by rw [h])
    else .isFalse (by intro he; cases he; exact h rfl)
  | .ok _, .error _ => .isFalse (by intro h; cases h)
  | .error _, .ok _ => .isFalse (by intro h; cases h)
  | .error e, .error f =>
    if h : e = f then .isTrue (by rw [h])
    else .isFalse (by intro he; cases he; exact h rfl)

/-- Per-counter-width entries: counter_bits maps to (last_counter, last_random). -/
abbrev CMap := List (Nat × (Nat × Nat))

/-- The process-wide `_counters` dict: fraction_bits maps to
(last_timestamp_with_fraction, per-width entries). -/
abbrev Store := List (Nat × (Nat × CMap))

instance : DecidableEq CMap := inferInstance

set_option synthInstance.maxSize 512 in
instance : DecidableEq Store := inferInstance

/-- Association-list lookup (dict read). -/
def lookupA {β : Type} (k : Nat) : List (Nat × β) → Option β
  | [] => none
  | (k2, v) :: t => if k = k2 then some v else lookupA k t

/-- Association-list update (dict write). -/
def updA {β : Type} (k : Nat) (v : β) : List (Nat × β) → List (Nat × β)
  | [] => [(k, v)]
  | (k2, v2) :: t => if k = k2 then (k, v) :: t else (k2, v2) :: updA k v t

/-- Reads `_counters.get(fraction_bits, (0, \x7b\x7d))`. -/
def storeGet (st : Store) (fraction_bits : Nat) : Nat × CMap :=
  (lookupA fraction_bits st).getD (0, [])

/-- `_getrandbits n` at stream index `i`. -/
def getrandbits (g : Nat → Nat) (i n : Nat) : Nat × Nat :=
  (g i % 2 ^ n, i + 1)

/-- `_randrange(a, b)`: a value in [a, b); ValueError on an empty range. -/
def randrange (g : Nat → Nat) (i a b : Nat) : Except Err Nat × Nat :=
  if a < b then (.ok (a + g i % (b - a)), i + 1) else (.error .valueError, i)

/-- `_init_counter`. -/
def init_counter (g : Nat → Nat) (i counter_bits counter_guard_seed_bits : Nat) :
    Nat × Nat :=
  getrandbits g i (counter_bits - counter_guard_seed_bits)

/-- `_increment_counter`. -/
def increment_counter (g : Nat → Nat) (i : Nat)
    (counter_bits counter_guard_seed_bits counter_step : Nat)
    (last_counter : Option Nat) : Except Err Nat × Nat :=
  match last_counter with
  | none =>
    let ci := init_counter g i counter_bits counter_guard_seed_bits
    (.ok ci.1, ci.2)
  | some lc =>
    let c := lc + counter_step
    if c < 2 ^ counter_bits then (.ok c, i) else (.error .counterOverflow, i)

/-- `_counter_method1` (Fixed Bit-Length Dedicated Counter).  `last_counter`
is the stored counter for this tick and width, absent on first use. -/
def counter_method1 (g : Nat → Nat) (counter_bits : Nat) (counter : Option Nat)
    (counter_guard_seed_bits counter_step : Nat) (random : Option Nat)
    (random_bits : Nat) (last_counter : Option Nat) (i : Nat) :
    Except Err (Nat × Nat) × Nat :=
  let step1 : Except Err Nat × Nat :=
    match counter with
    | none =>
      increment_counter g i counter_bits counter_guard_seed_bits counter_step
        last_counter
    | some c =>
      match last_counter with
      | some lc =>
        (if lc < c then .ok c else .error .monotonicityViolation, i)
      | none => (.ok c, i)
  match step1 with
  | (.error e, i1) => (.error e, i1)
  | (.ok c, i1) =>
    match random with
    | none =>
      let ri := getrandbits g i1 random_bits
      (.ok (c, ri.1), ri.2)
    | some r => (.ok (c, r), i1)

/-- `_counter_method2` (Monotonic Random).  `last` is the stored
(last_counter, last_random) pair for this tick and width (in the source both
are absent or both present, as they come from one dict entry). -/
def counter_method2 (g : Nat → Nat) (counter_bits : Nat) (counter : Option Nat)
    (counter_guard_seed_bits counter_step : Nat) (random : Option Nat)
    (random_bits : Nat) (last : Option (Nat × Nat)) (i : Nat) :
    Except Err (Nat × Nat) × Nat :=
  match random with
  | some r =>
    match last with
    | none => (.ok (0, r), i)
    | some (lc, lr) =>
      match counter with
      | none =>
        (if lr < r then .ok (lc, r) else .error .monotonicityViolation, i)
      | some c =>
        if lc ≠ c then
          (if lc < c then .ok (c, r) else .error .monotonicityViolation, i)
        else
          (if lr < r then .ok (c, r) else .error .monotonicityViolation, i)
  | none =>
    match counter with
    | some c =>
      match last with
      | none =>
        let ri := getrandbits g i random_bits
        (.ok (c, ri.1), ri.2)
      | some (lc, lr) =>
        if lc ≤ c then
          if lc < c then
            let ri := getrandbits g i random_bits
            (.ok (c, ri.1), ri.2)
          else
            match randrange g i lr (2 ^ random_bits) with
            | (.ok r, i1) => (.ok (c, r), i1)
            | (.error e, i1) => (.error e, i1)
        else (.error .monotonicityViolation, i)
    | none =>
      let ri := getrandbits g i random_bits
      match last with
      | none => (.ok (0, ri.1), ri.2)
      | some (lc, lr) =>
        let r2 := lr + 1 + ri.1
        if r2 < 2 ^ random_bits then (.ok (lc, r2), ri.2)
        else if counter_bits = 0 then (.error .missingCounterGuard, ri.2)
        else
          match increment_counter g ri.2 counter_bits counter_guard_seed_bits
              counter_step (some lc) with
          | (.ok c, i2) => (.ok (c, r2 &&& (2 ^ random_bits - 1)), i2)
          | (.error e, i2) => (.error e, i2)

/-- The prior (last_counter, last_random) pair `_calc_counter_and_random`
supplies to a strategy: absent when the tick advanced or the requested width
has no entry. -/
def calcPrior (fraction_bits counter_bits unix_ts_ms_with_fraction : Nat)
    (st : Store) : Option (Nat × Nat) :=
  let tc := storeGet st fraction_bits
  if tc.1 < unix_ts_ms_with_fraction ∨ lookupA counter_bits tc.2 = none
  then none
  else lookupA counter_bits tc.2

/-- Modelled from the spec (section 4.3): the store supplies the prior pair
only if the newly computed timestamp-with-fraction equals the stored one and
the requested counter_bits has a prior entry for that tick; otherwise both
are treated as absent. -/
def specPrior (fraction_bits counter_bits unix_ts_ms_with_fraction : Nat)
    (st : Store) : Option (Nat × Nat) :=
  let tc := storeGet st fraction_bits
  if tc.1 = unix_ts_ms_with_fraction then lookupA counter_bits tc.2 else none

/-- `_calc_counter_and_random`: reads the store, runs the strategy, and (only
after the strategy succeeded) writes the new tick and pair back. -/
def calc_counter_and_random (g : Nat → Nat)
    (fraction_bits counter_bits : Nat) (monotonic_random : Bool)
    (counter : Option Nat) (counter_guard_seed_bits counter_step : Nat)
    (random : Option Nat) (unix_ts_ms_with_fraction random_bits : Nat)
    (st : Store) (i : Nat) : Except Err (Nat × Nat) × Store × Nat :=
  let tc := storeGet st fraction_bits
  if tc.1 ≤ unix_ts_ms_with_fraction then
    let last := calcPrior fraction_bits counter_bits unix_ts_ms_with_fraction st
    let resi :=
      if monotonic_random then
        counter_method2 g counter_bits counter counter_guard_seed_bits
          counter_step random random_bits last i
      else
        counter_method1 g counter_bits counter counter_guard_seed_bits
          counter_step random random_bits (last.map Prod.fst) i
    match resi with
    | (.ok (c, r), i1) =>
      (.ok (c, r),
        updA fraction_bits
          (unix_ts_ms_with_fraction, updA counter_bits (c, r) tc.2) st,
        i1)
    | (.error e, i1) => (.error e, st, i1)
  else (.error .timestampsNotMonotonic, st, i)

/-- Nanoseconds in a millisecond. -/
def NS_IN_MS : Int := 1000000

/-- The range assert of `_normalize_timestamp`: the result must fit in
48+12 bits (an internal invariant, not a user error). -/
def check60 (r : Int) : Except Err Int :=
  if 0 ≤ r ∧ r < 2 ^ 60 then .ok r else .error .internalInvariant

/-- `_normalize_timestamp`: normalize to milliseconds with a 12-bit
fraction.  `nowNs` is the current time (`time_ns()`), used when the input is
absent. -/
def normalize_timestamp (nowNs : Int) (timestamp : TsInput) : Except Err Int :=
  match timestamp with
  | .absent => check60 (Int.fdiv (nowNs * 2 ^ 12) NS_IN_MS)
  | .nanos ns => check60 (Int.fdiv (ns * 2 ^ 12) NS_IN_MS)
  | .instant v => check60 v
  | .seconds v => check60 v
  | .text v => check60 v
  | .other => .error .invalidTimestampType

/-- An assert: continue with `rest` when `p` holds, fail with `e` otherwise. -/
def ensure (p : Prop) [Decidable p] (e : Err) (rest : Except Err Unit) :
    Except Err Unit :=
  if p then rest else .error e

/-- Sequencing of two checks. -/
def seqE (a b : Except Err Unit) : Except Err Unit :=
  match a with
  | .ok _ => b
  | .error e => .error e

/-- The validation block at the top of `_compose_uuid`, in source order.
The `valueError` check models the ValueError Python raises at
`1 << random_num_bits` when `74 - fraction_bits - counter_bits` is negative
(reachable only with monotonic_random and an explicit random). -/
def validate_config (timestamp : TsInput) (fraction_bits : Nat)
    (counter : Option Nat)
    (counter_guard_seed_bits counter_bits counter_step : Nat)
    (use_recommended monotonic_random : Bool) (random : Option Nat) :
    Except Err Unit :=
  ensure (fraction_bits ≤ 12) (.configError .invalidFractionBits) (
  seqE
    (if monotonic_random then
      match random with
      | none =>
        ensure (counter_bits ≤ 74 - fraction_bits)
          (.configError .invalidCounterBitsMonoGuard)
          (ensure (timestamp = .absent) (.configError .randomRequired) (.ok ()))
      | some _ => .ok ()
    else if counter_bits ≠ 0 then
      if use_recommended then
        ensure (12 ≤ counter_bits ∧ counter_bits ≤ 42)
          (.configError .invalidCounterBitsRecommended) (.ok ())
      else
        ensure (0 < counter_bits ∧ counter_bits ≤ 74 - fraction_bits)
          (.configError .invalidCounterBits) (.ok ())
    else .ok ())
  (seqE
    (match counter with
     | none =>
       ensure (counter_guard_seed_bits ≤ counter_bits)
         (.configError .invalidGuardSeed)
         (if counter_bits ≠ 0 then
            ensure (timestamp = .absent) (.configError .counterRequired)
              (ensure (0 < counter_step ∧ counter_step < 2 ^ counter_bits)
                (.configError .invalidCounterStep) (.ok ()))
          else .ok ())
     | some c =>
       ensure (counter_bits ≠ 0) (.configError .counterBitsRequired)
         (ensure (c < 2 ^ counter_bits) (.configError .invalidCounterValue)
           (.ok ())))
    (match random with
     | none => .ok ()
     | some r =>
       ensure (fraction_bits + counter_bits ≤ 74) .valueError
         (ensure (r < 2 ^ (74 - fraction_bits - counter_bits))
           (.configError .invalidRandomValue) (.ok ())))))

/-- `_construct_uuid7_int`: stamp the version nibble 0111 and the variant
bits 10 around the three hardware-aligned fields. -/
def construct_uuid7_int (uts ra rb : Nat) : Nat :=
  (uts <<< 80) ||| (7 <<< 76) ||| (ra <<< 64) ||| (2 <<< 62) ||| rb

/-- `_compose_data`: pack timestamp,counter and random into the 74-bit
payload and re-split it at the fixed 74/62 boundaries. -/
def compose_data (unix_ts_ms_with_fraction fraction_bits c random_bits r : Nat) :
    Nat :=
  let data :=
    (unix_ts_ms_with_fraction <<< (74 - fraction_bits)) |||
    (c <<< random_bits) ||| r
  construct_uuid7_int (data >>> 74) (data >>> 62 &&& 0x0fff)
    (data &&& (2 ^ 62 - 1))

/-- `_compose_uuid`: validate, normalize the timestamp, produce the
counter/random pair (stateful when no explicit timestamp is given), and pack.
Returns the UUID integer or the error, together with the store and the
random-stream index after the call. -/
def compose_uuid (g : Nat → Nat) (nowNs : Int) (timestamp : TsInput)
    (fraction_bits : Nat) (counter : Option Nat)
    (counter_guard_seed_bits counter_bits counter_step : Nat)
    (use_recommended monotonic_random : Bool) (random : Option Nat)
    (st : Store) (i : Nat) : Except Err Nat × Store × Nat :=
  match validate_config timestamp fraction_bits counter counter_guard_seed_bits
      counter_bits counter_step use_recommended monotonic_random random with
  | .error e => (.error e, st, i)
  | .ok _ =>
    let random_bits := 74 - fraction_bits - counter_bits
    match normalize_timestamp nowNs timestamp with
    | .error e => (.error e, st, i)
    | .ok ts12 =>
      let unix_ts_ms_with_fraction := ts12.toNat >>> (12 - fraction_bits)
      match timestamp with
      | .absent =>
        match calc_counter_and_random g fraction_bits counter_bits
            monotonic_random counter counter_guard_seed_bits counter_step
            random unix_ts_ms_with_fraction random_bits st i with
        | (.ok (c, r), st1, i1) =>
          (.ok (compose_data unix_ts_ms_with_fraction fraction_bits c
            random_bits r), st1, i1)
        | (.error e, st1, i1) => (.error e, st1, i1)
      | _ =>
        let ci :=
          match counter with
          | some c => (c, i)
          | none => init_counter g i counter_bits counter_guard_seed_bits
        let ri :=
          match random with
          | some r => (r, ci.2)
          | none => getrandbits g ci.2 random_bits
        (.ok (compose_data unix_ts_ms_with_fraction fraction_bits ci.1
          random_bits ri.1), st, ri.2)

/-- The fields-based constructor of `UUIDv7.__init__`: bit-exact
reconstruction from (unix_ts_ms, rand_a, rand_b), no state interaction. -/
def from_fields (uts ra rb : Nat) : Except Err Nat :=
  if uts < 2 ^ 48 then
    if ra < 2 ^ 12 then
      if rb < 2 ^ 62 then .ok (construct_uuid7_int uts ra rb)
      else .error .rangeError
    else .error .rangeError
  else .error .rangeError

/-- Accessor `UUIDv7.unix_ts_ms`. -/
def unix_ts_ms (u : Nat) : Nat := u >>> 80

/-- Accessor `UUIDv7.rand_a`. -/
def rand_a (u : Nat) : Nat := u >>> 64 &&& 0x0fff

/-- Accessor `UUIDv7.rand_b`. -/
def rand_b (u : Nat) : Nat := u &&& (2 ^ 62 - 1)

/-- Width-consistency of the store: every (counter, random) pair recorded
under a (fraction_bits, counter_bits) key pair respects its bit widths. -/
def Store.WF (st : Store) : Prop :=
  ∀ fb T cs, (fb, (T, cs)) ∈ st →
    ∀ cb c r, (cb, (c, r)) ∈ cs → c < 2 ^ cb ∧ r < 2 ^ (74 - fb - cb)

/-! ### Association-list lemmas -/

theorem mem_of_lookupA {β : Type} {k : Nat} {v : β} {l : List (Nat × β)}
    (h : lookupA k l = some v) : (k, v) ∈ l := by
  induction l with
  | nil => simp [lookupA] at h
  | cons hd t ih =>
    obtain ⟨k2, v2⟩ := hd
    by_cases hk : k = k2
    · subst hk
      simp [lookupA] at h
      subst h
      exact List.mem_cons_self _ _
    · simp only [lookupA, if_neg hk] at h
      exact List.mem_cons_of_mem _ (ih h)

theorem lookupA_updA_self {β : Type} (k : Nat) (v : β) (l : List (Nat × β)) :
    lookupA k (updA k v l) = some v := by
  induction l with
  | nil => simp [updA, lookupA]
  | cons hd t ih =>
    obtain ⟨k2, v2⟩ := hd
    by_cases hk : k = k2
    · simp [updA, lookupA, hk]
    · simp [updA, lookupA, hk, ih]

/-! ### Bit-arithmetic helpers -/

theorem mul_pow_lt {a m : Nat} (k : Nat) (h : a < 2 ^ m) :
    a * 2 ^ k < 2 ^ (m + k) := by
  rw [pow_add]
  exact Nat.mul_lt_mul_of_lt_of_le h (le_refl _) (Nat.two_pow_pos k)

theorem or_eq_add_of_mod_eq_zero (k : Nat) {x b : Nat} (hx : x % 2 ^ k = 0)
    (hb : b < 2 ^ k) : x ||| b = x + b := by
  obtain ⟨q, rfl⟩ := Nat.dvd_of_mod_eq_zero hx
  apply Nat.eq_of_testBit_eq
  intro j
  rw [Nat.testBit_lor]
  by_cases hj : j < k
  · have h1 : Nat.testBit (2 ^ k * q) j = false := by
      have h0 := Nat.testBit_mod_two_pow (2 ^ k * q) k j
      rw [Nat.mul_mod_right] at h0
      simpa [hj] using h0.symm
    have h2 : Nat.testBit (2 ^ k * q + b) j = Nat.testBit b j := by
      have h0 := Nat.testBit_mod_two_pow (2 ^ k * q + b) k j
      rw [Nat.mul_add_mod, Nat.mod_eq_of_lt hb] at h0
      simpa [hj] using h0.symm
    rw [h1, h2, Bool.false_or]
  · push_neg at hj
    have hbj : Nat.testBit b j = false :=
      Nat.testBit_lt_two_pow
        (lt_of_lt_of_le hb (Nat.pow_le_pow_right (by norm_num) hj))
    have h3 : Nat.testBit (2 ^ k * q + b) j = Nat.testBit (2 ^ k * q) j := by
      rw [Nat.testBit_to_div_mod, Nat.testBit_to_div_mod]
      obtain ⟨m, rfl⟩ := Nat.exists_eq_add_of_le hj
      rw [Nat.pow_add, ← Nat.div_div_eq_div_mul, ← Nat.div_div_eq_div_mul,
        Nat.mul_add_div (Nat.two_pow_pos k), Nat.div_eq_of_lt hb,
        Nat.mul_div_cancel_left _ (Nat.two_pow_pos k), Nat.add_zero]
    rw [h3, hbj, Bool.or_false]

theorem construct_uuid7_int_eq {uts ra rb : Nat} (hb : ra < 2 ^ 12)
    (hc : rb < 2 ^ 62) :
    construct_uuid7_int uts ra rb =
      uts * 2 ^ 80 + 7 * 2 ^ 76 + ra * 2 ^ 64 + 2 * 2 ^ 62 + rb := by
  rw [construct_uuid7_int, Nat.shiftLeft_eq, Nat.shiftLeft_eq,
    Nat.shiftLeft_eq, Nat.shiftLeft_eq]
  rw [or_eq_add_of_mod_eq_zero (80) (Nat.mul_mod_left _ _) (by norm_num)]
  rw [show uts * 2 ^ 80 + 7 * 2 ^ 76 = (uts * 2 ^ 4 + 7) * 2 ^ 76 from by ring,
    or_eq_add_of_mod_eq_zero (76) (Nat.mul_mod_left _ _)
      (lt_of_lt_of_le (mul_pow_lt 64 hb) (by norm_num))]
  rw [show (uts * 2 ^ 4 + 7) * 2 ^ 76 + ra * 2 ^ 64 =
      (uts * 2 ^ 16 + 7 * 2 ^ 12 + ra) * 2 ^ 64 from by ring,
    or_eq_add_of_mod_eq_zero (64) (Nat.mul_mod_left _ _) (by norm_num)]
  rw [show (uts * 2 ^ 16 + 7 * 2 ^ 12 + ra) * 2 ^ 64 + 2 * 2 ^ 62 =
      (uts * 2 ^ 18 + 7 * 2 ^ 14 + ra * 2 ^ 2 + 2) * 2 ^ 62 from by ring,
    or_eq_add_of_mod_eq_zero (62) (Nat.mul_mod_left _ _) hc]

theorem unix_ts_ms_construct {uts ra rb : Nat}
    (hb : ra < 2 ^ 12) (hc : rb < 2 ^ 62) :
    unix_ts_ms (construct_uuid7_int uts ra rb) = uts := by
  rw [unix_ts_ms, Nat.shiftRight_eq_div_pow, construct_uuid7_int_eq hb hc]
  rw [show uts * 2 ^ 80 + 7 * 2 ^ 76 + ra * 2 ^ 64 + 2 * 2 ^ 62 + rb =
      2 ^ 80 * uts + (7 * 2 ^ 76 + ra * 2 ^ 64 + 2 * 2 ^ 62 + rb) from by ring,
    Nat.mul_add_div (Nat.two_pow_pos 80)]
  have hrest : 7 * 2 ^ 76 + ra * 2 ^ 64 + 2 * 2 ^ 62 + rb < 2 ^ 80 := by
    omega
  rw [Nat.div_eq_of_lt hrest, Nat.add_zero]

theorem rand_a_construct {uts ra rb : Nat}
    (hb : ra < 2 ^ 12) (hc : rb < 2 ^ 62) :
    rand_a (construct_uuid7_int uts ra rb) = ra := by
  rw [rand_a, Nat.shiftRight_eq_div_pow,
    show (0x0fff : ℕ) = 2 ^ 12 - 1 from by norm_num,
    Nat.and_pow_two_sub_one_eq_mod, construct_uuid7_int_eq hb hc]
  rw [show uts * 2 ^ 80 + 7 * 2 ^ 76 + ra * 2 ^ 64 + 2 * 2 ^ 62 + rb =
      2 ^ 64 * (uts * 2 ^ 16 + 7 * 2 ^ 12 + ra) + (2 * 2 ^ 62 + rb) from by ring,
    Nat.mul_add_div (Nat.two_pow_pos 64)]
  have hrest : 2 * 2 ^ 62 + rb < 2 ^ 64 := by omega
  rw [Nat.div_eq_of_lt hrest, Nat.add_zero,
    show uts * 2 ^ 16 + 7 * 2 ^ 12 + ra = 2 ^ 12 * (uts * 2 ^ 4 + 7) + ra
      from by ring,
    Nat.mul_add_mod, Nat.mod_eq_of_lt hb]

theorem rand_b_construct {uts ra rb : Nat}
    (hb : ra < 2 ^ 12) (hc : rb < 2 ^ 62) :
    rand_b (construct_uuid7_int uts ra rb) = rb := by
  rw [rand_b, Nat.and_pow_two_sub_one_eq_mod, construct_uuid7_int_eq hb hc]
  rw [show uts * 2 ^ 80 + 7 * 2 ^ 76 + ra * 2 ^ 64 + 2 * 2 ^ 62 + rb =
      2 ^ 62 * (uts * 2 ^ 18 + 7 * 2 ^ 14 + ra * 2 ^ 2 + 2) + rb from by ring,
    Nat.mul_add_mod, Nat.mod_eq_of_lt hc]

theorem version_construct {uts ra rb : Nat} (hb : ra < 2 ^ 12)
    (hc : rb < 2 ^ 62) :
    construct_uuid7_int uts ra rb >>> 76 &&& 15 = 7 := by
  rw [Nat.shiftRight_eq_div_pow,
    show (15 : ℕ) = 2 ^ 4 - 1 from by norm_num,
    Nat.and_pow_two_sub_one_eq_mod, construct_uuid7_int_eq hb hc]
  rw [show uts * 2 ^ 80 + 7 * 2 ^ 76 + ra * 2 ^ 64 + 2 * 2 ^ 62 + rb =
      2 ^ 76 * (uts * 2 ^ 4 + 7) + (ra * 2 ^ 64 + 2 * 2 ^ 62 + rb) from by ring,
    Nat.mul_add_div (Nat.two_pow_pos 76)]
  have hrest : ra * 2 ^ 64 + 2 * 2 ^ 62 + rb < 2 ^ 76 := by omega
  rw [Nat.div_eq_of_lt hrest, Nat.add_zero,
    show uts * 2 ^ 4 + 7 = 2 ^ 4 * uts + 7 from by ring,
    Nat.mul_add_mod]
  norm_num

theorem variant_construct {uts ra rb : Nat} (hb : ra < 2 ^ 12)
    (hc : rb < 2 ^ 62) :
    construct_uuid7_int uts ra rb >>> 62 &&& 3 = 2 := by
  rw [Nat.shiftRight_eq_div_pow,
    show (3 : ℕ) = 2 ^ 2 - 1 from by norm_num,
    Nat.and_pow_two_sub_one_eq_mod, construct_uuid7_int_eq hb hc]
  rw [show uts * 2 ^ 80 + 7 * 2 ^ 76 + ra * 2 ^ 64 + 2 * 2 ^ 62 + rb =
      2 ^ 62 * (uts * 2 ^ 18 + 7 * 2 ^ 14 + ra * 2 ^ 2 + 2) + rb from by ring,
    Nat.mul_add_div (Nat.two_pow_pos 62), Nat.div_eq_of_lt hc, Nat.add_zero,
    show uts * 2 ^ 18 + 7 * 2 ^ 14 + ra * 2 ^ 2 + 2 =
      2 ^ 2 * (uts * 2 ^ 16 + 7 * 2 ^ 12 + ra) + 2 from by ring,
    Nat.mul_add_mod]
  norm_num

theorem pack_bound {cnb rnb c r : Nat} (hc : c < 2 ^ cnb) (hr : r < 2 ^ rnb) :
    c * 2 ^ rnb + r < 2 ^ (cnb + rnb) := by
  have h2 : c * 2 ^ rnb + r < (c + 1) * 2 ^ rnb := by
    have e : (c + 1) * 2 ^ rnb = c * 2 ^ rnb + 2 ^ rnb := by ring
    rw [e]
    exact Nat.add_lt_add_left hr _
  have h3 : (c + 1) * 2 ^ rnb ≤ 2 ^ cnb * 2 ^ rnb :=
    Nat.mul_le_mul_right _ hc
  rw [pow_add]
  exact lt_of_lt_of_le h2 h3

theorem payload_or_eq_add {fb cnb rnb tsF c r : Nat}
    (h74 : fb + cnb + rnb = 74) (hc : c < 2 ^ cnb) (hr : r < 2 ^ rnb) :
    (tsF <<< (74 - fb)) ||| (c <<< rnb) ||| r
      = tsF * 2 ^ (cnb + rnb) + c * 2 ^ rnb + r := by
  have h1 : 74 - fb = cnb + rnb := by omega
  rw [h1, Nat.shiftLeft_eq, Nat.shiftLeft_eq,
    or_eq_add_of_mod_eq_zero (cnb + rnb) (Nat.mul_mod_left _ _)
      (mul_pow_lt rnb hc),
    show tsF * 2 ^ (cnb + rnb) + c * 2 ^ rnb
        = (tsF * 2 ^ cnb + c) * 2 ^ rnb from by rw [pow_add]; ring,
    or_eq_add_of_mod_eq_zero (rnb) (Nat.mul_mod_left _ _) hr]

theorem compose_data_eq {fb cnb rnb tsF c r : Nat} (h74 : fb + cnb + rnb = 74)
    (hts : tsF < 2 ^ (48 + fb)) (hc : c < 2 ^ cnb) (hr : r < 2 ^ rnb) :
    compose_data tsF fb c rnb r =
      construct_uuid7_int
        ((tsF * 2 ^ (cnb + rnb) + c * 2 ^ rnb + r) / 2 ^ 74)
        ((tsF * 2 ^ (cnb + rnb) + c * 2 ^ rnb + r) / 2 ^ 62 % 2 ^ 12)
        ((tsF * 2 ^ (cnb + rnb) + c * 2 ^ rnb + r) % 2 ^ 62) ∧
      (tsF * 2 ^ (cnb + rnb) + c * 2 ^ rnb + r) / 2 ^ 74 < 2 ^ 48 := by
  have hcr : c * 2 ^ rnb + r < 2 ^ (cnb + rnb) := pack_bound hc hr
  have hd : (tsF <<< (74 - fb)) ||| (c <<< rnb) ||| r
      = tsF * 2 ^ (cnb + rnb) + c * 2 ^ rnb + r :=
    payload_or_eq_add h74 hc hr
  have hD : tsF * 2 ^ (cnb + rnb) + c * 2 ^ rnb + r < 2 ^ 122 := by
    have h2 : tsF * 2 ^ (cnb + rnb) + c * 2 ^ rnb + r
        < (tsF + 1) * 2 ^ (cnb + rnb) := by
      have e : (tsF + 1) * 2 ^ (cnb + rnb)
          = tsF * 2 ^ (cnb + rnb) + 2 ^ (cnb + rnb) := by ring
      rw [e, Nat.add_assoc]
      exact Nat.add_lt_add_left hcr _
    have h3 : (tsF + 1) * 2 ^ (cnb + rnb) ≤ 2 ^ (48 + fb) * 2 ^ (cnb + rnb) :=
      Nat.mul_le_mul_right _ hts
    have h4 : (2 : ℕ) ^ (48 + fb) * 2 ^ (cnb + rnb) = 2 ^ 122 := by
      rw [← pow_add]
      congr 1
      omega
    exact lt_of_lt_of_le h2 (le_trans h3 (le_of_eq h4))
  constructor
  · simp only [compose_data, hd]
    rw [Nat.shiftRight_eq_div_pow, Nat.shiftRight_eq_div_pow,
      show (0x0fff : ℕ) = 2 ^ 12 - 1 from by norm_num,
      Nat.and_pow_two_sub_one_eq_mod, Nat.and_pow_two_sub_one_eq_mod]
  · rw [Nat.div_lt_iff_lt_mul (Nat.two_pow_pos 74),
      show (2 : ℕ) ^ 48 * 2 ^ 74 = 2 ^ 122 from by norm_num]
    exact hD

theorem compose_roundtrip {fb cnb rnb tsF c r : Nat} (h74 : fb + cnb + rnb = 74)
    (hts : tsF < 2 ^ (48 + fb)) (hc : c < 2 ^ cnb) (hr : r < 2 ^ rnb) :
    from_fields (unix_ts_ms (compose_data tsF fb c rnb r))
      (rand_a (compose_data tsF fb c rnb r))
      (rand_b (compose_data tsF fb c rnb r)) =
      .ok (compose_data tsF fb c rnb r) := by
  obtain ⟨he, hlt⟩ := compose_data_eq h74 hts hc hr
  have hB : (tsF * 2 ^ (cnb + rnb) + c * 2 ^ rnb + r) / 2 ^ 62 % 2 ^ 12
      < 2 ^ 12 := Nat.mod_lt _ (by positivity)
  have hC : (tsF * 2 ^ (cnb + rnb) + c * 2 ^ rnb + r) % 2 ^ 62 < 2 ^ 62 :=
    Nat.mod_lt _ (by positivity)
  rw [he, unix_ts_ms_construct hB hC, rand_a_construct hB hC,
    rand_b_construct hB hC, from_fields, if_pos hlt, if_pos hB, if_pos hC]

/-! ### Validator characterization -/

theorem ensure_ok_iff {p : Prop} [Decidable p] {e : Err}
    {rest : Except Err Unit} :
    ensure p e rest = .ok () ↔ p ∧ rest = .ok () := by
  unfold ensure
  split <;> simp_all

theorem seqE_ok_iff {a b : Except Err Unit} :
    seqE a b = .ok () ↔ a = .ok () ∧ b = .ok () := by
  cases a with
  | ok v => cases v; simp [seqE]
  | error e => simp [seqE]

theorem validate_config_ok_iff {timestamp : TsInput} {fb : Nat}
    {counter : Option Nat} {cgsb cnb cstep : Nat} {useRec monoRand : Bool}
    {random : Option Nat} :
    validate_config timestamp fb counter cgsb cnb cstep useRec monoRand
        random = .ok () ↔
      fb ≤ 12 ∧
      (if monoRand then
        (random = none → cnb ≤ 74 - fb ∧ timestamp = .absent)
      else if cnb ≠ 0 then
        (if useRec then 12 ≤ cnb ∧ cnb ≤ 42
         else 0 < cnb ∧ cnb ≤ 74 - fb)
      else True) ∧
      (match counter with
       | none => cgsb ≤ cnb ∧
           (cnb ≠ 0 → timestamp = .absent ∧ 0 < cstep ∧ cstep < 2 ^ cnb)
       | some c => cnb ≠ 0 ∧ c < 2 ^ cnb) ∧
      (match random with
       | none => True
       | some r => fb + cnb ≤ 74 ∧ r < 2 ^ (74 - fb - cnb)) := by
  unfold validate_config
  rw [ensure_ok_iff, seqE_ok_iff, seqE_ok_iff]
  refine and_congr Iff.rfl (and_congr ?_ (and_congr ?_ ?_))
  · cases monoRand with
    | true =>
      cases random with
      | none => simp only [if_true]; rw [ensure_ok_iff, ensure_ok_iff]; simp
      | some r => simp
    | false =>
      simp only [if_false, Bool.false_eq_true]
      by_cases hc : cnb ≠ 0
      · rw [if_pos hc]
        cases useRec with
        | true => rw [if_pos rfl, ensure_ok_iff]; simp [hc]
        | false =>
          rw [if_neg (by simp), ensure_ok_iff]
          simp [hc]
      · rw [if_neg hc]
        simp [hc]
  · cases counter with
    | none =>
      rw [ensure_ok_iff]
      by_cases hc : cnb ≠ 0
      · rw [if_pos hc, ensure_ok_iff, ensure_ok_iff]
        simp [hc, and_assoc]
      · rw [if_neg hc]
        simp [hc]
    | some c => rw [ensure_ok_iff, ensure_ok_iff]; simp
  · cases random with
    | none => simp
    | some r => rw [ensure_ok_iff, ensure_ok_iff]; simp

theorem validate_ok_facts {timestamp : TsInput} {fb : Nat}
    {counter : Option Nat} {cgsb cnb cstep : Nat} {useRec monoRand : Bool}
    {random : Option Nat}
    (h : validate_config timestamp fb counter cgsb cnb cstep useRec monoRand
        random = .ok ()) :
    fb ≤ 12 ∧ fb + cnb ≤ 74 ∧
    (∀ c0, counter = some c0 → c0 < 2 ^ cnb) ∧
    (∀ r0, random = some r0 → r0 < 2 ^ (74 - fb - cnb)) ∧
    (counter = none → cnb ≠ 0 → timestamp = .absent ∧ 0 < cstep) := by
  rw [validate_config_ok_iff] at h
  obtain ⟨h1, h2, h3, h4⟩ := h
  refine ⟨h1, ?_, ?_, ?_, ?_⟩
  · cases monoRand with
    | true =>
      rw [if_pos rfl] at h2
      cases random with
      | none => have := h2 rfl; omega
      | some r => simp at h4; omega
    | false =>
      rw [if_neg (by simp)] at h2
      by_cases hc : cnb ≠ 0
      · rw [if_pos hc] at h2
        cases useRec with
        | true => rw [if_pos rfl] at h2; omega
        | false => rw [if_neg (by simp)] at h2; omega
      · simp at hc; omega
  · intro c0 hc0
    subst hc0
    simp at h3
    exact h3.2
  · intro r0 hr0
    subst hr0
    simp at h4
    exact h4.2
  · intro hcn hcnb
    subst hcn
    simp at h3
    exact ⟨(h3.2 hcnb).1, (h3.2 hcnb).2.1⟩

theorem normalize_ok_bounds {nowNs : Int} {t : TsInput} {v : Int}
    (h : normalize_timestamp nowNs t = .ok v) : 0 ≤ v ∧ v < 2 ^ 60 := by
  have hc : ∀ x : Int, check60 x = .ok v → 0 ≤ v ∧ v < 2 ^ 60 := by
    intro x hx
    unfold check60 at hx
    split at hx
    · cases hx
      assumption
    · cases hx
  cases t <;> first
    | exact hc _ h
    | cases h

theorem tsF_bound {ts12 : Int} (h0 : 0 ≤ ts12) (h1 : ts12 < 2 ^ 60)
    {fb : Nat} (hfb : fb ≤ 12) :
    ts12.toNat >>> (12 - fb) < 2 ^ (48 + fb) := by
  rw [Nat.shiftRight_eq_div_pow,
    Nat.div_lt_iff_lt_mul (Nat.two_pow_pos _), ← pow_add,
    show 48 + fb + (12 - fb) = 60 from by omega]
  omega

/-! ### Bounds produced by the counter strategies -/

theorem counter_method1_ok_bounds {g : Nat → Nat} {cnb : Nat}
    {counter : Option Nat} {cgsb cstep : Nat} {random : Option Nat}
    {rnb : Nat} {lastC : Option Nat} {i c r i1 : Nat}
    (hcnt : ∀ c0, counter = some c0 → c0 < 2 ^ cnb)
    (hrnd : ∀ r0, random = some r0 → r0 < 2 ^ rnb)
    (h : counter_method1 g cnb counter cgsb cstep random rnb lastC i
      = (.ok (c, r), i1)) :
    c < 2 ^ cnb ∧ r < 2 ^ rnb := by
  have hmod : ∀ j n : Nat, g j % 2 ^ n < 2 ^ n :=
    fun j n => Nat.mod_lt _ (Nat.two_pow_pos n)
  have hsub : (2 : ℕ) ^ (cnb - cgsb) ≤ 2 ^ cnb :=
    Nat.pow_le_pow_right (by norm_num) (Nat.sub_le _ _)
  rcases counter with _ | c0
  · rcases lastC with _ | lc
    · rcases random with _ | r0 <;>
        simp only [counter_method1, increment_counter, init_counter,
          getrandbits, Prod.mk.injEq, Except.ok.injEq] at h
      · obtain ⟨⟨hc1, hr1⟩, -⟩ := h
        subst hc1
        subst hr1
        exact ⟨lt_of_lt_of_le (hmod _ _) hsub, hmod _ _⟩
      · obtain ⟨⟨hc1, hr1⟩, -⟩ := h
        subst hc1
        subst hr1
        exact ⟨lt_of_lt_of_le (hmod _ _) hsub, hrnd _ rfl⟩
    · by_cases hlt : lc + cstep < 2 ^ cnb
      · rcases random with _ | r0 <;>
          simp only [counter_method1, increment_counter, if_pos hlt,
            getrandbits, Prod.mk.injEq, Except.ok.injEq] at h
        · obtain ⟨⟨hc1, hr1⟩, -⟩ := h
          subst hc1
          subst hr1
          exact ⟨hlt, hmod _ _⟩
        · obtain ⟨⟨hc1, hr1⟩, -⟩ := h
          subst hc1
          subst hr1
          exact ⟨hlt, hrnd _ rfl⟩
      · rcases random with _ | r0 <;>
          simp only [counter_method1, increment_counter, if_neg hlt,
            getrandbits] at h <;> simp at h
  · rcases lastC with _ | lc
    · rcases random with _ | r0 <;>
        simp only [counter_method1, getrandbits, Prod.mk.injEq,
          Except.ok.injEq] at h
      · obtain ⟨⟨hc1, hr1⟩, -⟩ := h
        subst hc1
        subst hr1
        exact ⟨hcnt _ rfl, hmod _ _⟩
      · obtain ⟨⟨hc1, hr1⟩, -⟩ := h
        subst hc1
        subst hr1
        exact ⟨hcnt _ rfl, hrnd _ rfl⟩
    · by_cases hlt : lc < c0
      · rcases random with _ | r0 <;>
          simp only [counter_method1, if_pos hlt, getrandbits,
            Prod.mk.injEq, Except.ok.injEq] at h
        · obtain ⟨⟨hc1, hr1⟩, -⟩ := h
          subst hc1
          subst hr1
          exact ⟨hcnt _ rfl, hmod _ _⟩
        · obtain ⟨⟨hc1, hr1⟩, -⟩ := h
          subst hc1
          subst hr1
          exact ⟨hcnt _ rfl, hrnd _ rfl⟩
      · rcases random with _ | r0 <;>
          simp only [counter_method1, if_neg hlt, getrandbits] at h <;>
          simp at h

theorem counter_method2_ok_bounds {g : Nat → Nat} {cnb : Nat}
    {counter : Option Nat} {cgsb cstep : Nat} {random : Option Nat}
    {rnb : Nat} {last : Option (Nat × Nat)} {i c r i1 : Nat}
    (hcnt : ∀ c0, counter = some c0 → c0 < 2 ^ cnb)
    (hrnd : ∀ r0, random = some r0 → r0 < 2 ^ rnb)
    (hlast : ∀ lc lr, last = some (lc, lr) → lc < 2 ^ cnb)
    (h : counter_method2 g cnb counter cgsb cstep random rnb last i
      = (.ok (c, r), i1)) :
    c < 2 ^ cnb ∧ r < 2 ^ rnb := by
  have hmod : ∀ j n : Nat, g j % 2 ^ n < 2 ^ n :=
    fun j n => Nat.mod_lt _ (Nat.two_pow_pos n)
  rcases random with _ | r0
  · rcases counter with _ | c0
    · rcases last with _ | ⟨lc, lr⟩
      · simp only [counter_method2, getrandbits, Prod.mk.injEq,
          Except.ok.injEq] at h
        obtain ⟨⟨hc1, hr1⟩, -⟩ := h
        subst hc1
        subst hr1
        exact ⟨Nat.two_pow_pos cnb, hmod _ _⟩
      · by_cases h2 : lr + 1 + g i % 2 ^ rnb < 2 ^ rnb
        · simp only [counter_method2, getrandbits, if_pos h2, Prod.mk.injEq,
            Except.ok.injEq] at h
          obtain ⟨⟨hc1, hr1⟩, -⟩ := h
          subst hc1
          subst hr1
          exact ⟨hlast _ _ rfl, h2⟩
        · by_cases h3 : cnb = 0
          · simp only [counter_method2, getrandbits, if_neg h2, if_pos h3]
              at h
            simp at h
          · by_cases h4 : lc + cstep < 2 ^ cnb
            · simp only [counter_method2, getrandbits, increment_counter,
                if_neg h2, if_neg h3, if_pos h4, Prod.mk.injEq,
                Except.ok.injEq] at h
              obtain ⟨⟨hc1, hr1⟩, -⟩ := h
              subst hc1
              subst hr1
              refine ⟨h4, ?_⟩
              rw [Nat.and_pow_two_sub_one_eq_mod]
              exact Nat.mod_lt _ (Nat.two_pow_pos _)
            · simp only [counter_method2, getrandbits, increment_counter,
                if_neg h2, if_neg h3, if_neg h4] at h
              simp at h
    · rcases last with _ | ⟨lc, lr⟩
      · simp only [counter_method2, getrandbits, Prod.mk.injEq,
          Except.ok.injEq] at h
        obtain ⟨⟨hc1, hr1⟩, -⟩ := h
        subst hc1
        subst hr1
        exact ⟨hcnt _ rfl, hmod _ _⟩
      · by_cases h2 : lc ≤ c0
        · by_cases h3 : lc < c0
          · simp only [counter_method2, if_pos h2, if_pos h3, getrandbits,
              Prod.mk.injEq, Except.ok.injEq] at h
            obtain ⟨⟨hc1, hr1⟩, -⟩ := h
            subst hc1
            subst hr1
            exact ⟨hcnt _ rfl, hmod _ _⟩
          · by_cases h4 : lr < 2 ^ rnb
            · simp only [counter_method2, if_pos h2, if_neg h3, randrange,
                if_pos h4, Prod.mk.injEq, Except.ok.injEq] at h
              obtain ⟨⟨hc1, hr1⟩, -⟩ := h
              subst hc1
              subst hr1
              have h5 : g i % (2 ^ rnb - lr) < 2 ^ rnb - lr :=
                Nat.mod_lt _ (by omega)
              exact ⟨hcnt _ rfl, by omega⟩
            · simp only [counter_method2, if_pos h2, if_neg h3, randrange,
                if_neg h4] at h
              simp at h
        · simp only [counter_method2, if_neg h2] at h
          simp at h
  · rcases last with _ | ⟨lc, lr⟩
    · simp only [counter_method2, Prod.mk.injEq, Except.ok.injEq] at h
      obtain ⟨⟨hc1, hr1⟩, -⟩ := h
      subst hc1
      subst hr1
      exact ⟨Nat.two_pow_pos cnb, hrnd _ rfl⟩
    · rcases counter with _ | c0
      · by_cases h2 : lr < r0
        · simp only [counter_method2, if_pos h2, Prod.mk.injEq,
            Except.ok.injEq] at h
          obtain ⟨⟨hc1, hr1⟩, -⟩ := h
          subst hc1
          subst hr1
          exact ⟨hlast _ _ rfl, hrnd _ rfl⟩
        · simp only [counter_method2, if_neg h2] at h
          simp at h
      · by_cases h2 : lc ≠ c0
        · by_cases h3 : lc < c0
          · simp only [counter_method2, if_pos h2, if_pos h3, Prod.mk.injEq,
              Except.ok.injEq] at h
            obtain ⟨⟨hc1, hr1⟩, -⟩ := h
            subst hc1
            subst hr1
            exact ⟨hcnt _ rfl, hrnd _ rfl⟩
          · simp only [counter_method2, if_pos h2, if_neg h3] at h
            simp at h
        · by_cases h3 : lr < r0
          · simp only [counter_method2, if_neg h2, if_pos h3, Prod.mk.injEq,
              Except.ok.injEq] at h
            obtain ⟨⟨hc1, hr1⟩, -⟩ := h
            subst hc1
            subst hr1
            exact ⟨hcnt _ rfl, hrnd _ rfl⟩
          · simp only [counter_method2, if_neg h2, if_neg h3] at h
            simp at h

theorem calcPrior_bounds {fb cnb ts : Nat} {st : Store} {lc lr : Nat}
    (hwf : Store.WF st) (h : calcPrior fb cnb ts st = some (lc, lr)) :
    lc < 2 ^ cnb ∧ lr < 2 ^ (74 - fb - cnb) := by
  simp only [calcPrior] at h
  split at h
  · cases h
  · cases hs : lookupA fb st with
    | none =>
      rw [storeGet, hs] at h
      simp [lookupA] at h
    | some tc =>
      obtain ⟨T, cs⟩ := tc
      rw [storeGet, hs] at h
      exact hwf fb T cs (mem_of_lookupA hs) cnb lc lr (mem_of_lookupA h)

theorem calc_ok_bounds {g : Nat → Nat} {fb cnb : Nat} {monoRand : Bool}
    {counter : Option Nat} {cgsb cstep : Nat} {random : Option Nat}
    {ts rnb : Nat} {st : Store} {i c r : Nat} {st1 : Store} {i1 : Nat}
    (hwf : Store.WF st) (hrnb : rnb = 74 - fb - cnb)
    (hcnt : ∀ c0, counter = some c0 → c0 < 2 ^ cnb)
    (hrnd : ∀ r0, random = some r0 → r0 < 2 ^ rnb)
    (h : calc_counter_and_random g fb cnb monoRand counter cgsb cstep random
        ts rnb st i = (.ok (c, r), st1, i1)) :
    c < 2 ^ cnb ∧ r < 2 ^ rnb := by
  subst hrnb
  simp only [calc_counter_and_random] at h
  split at h
  · split at h
    · rename_i c2 r2 i2 heq
      simp only [Prod.mk.injEq, Except.ok.injEq] at h
      obtain ⟨⟨hc1, hr1⟩, -⟩ := h
      subst hc1
      subst hr1
      cases monoRand
      · rw [if_neg (by simp)] at heq
        exact counter_method1_ok_bounds hcnt hrnd heq
      · rw [if_pos rfl] at heq
        exact counter_method2_ok_bounds hcnt hrnd
          (fun lc lr hp => (calcPrior_bounds hwf hp).1) heq
    · simp at h
  · simp at h

theorem mem_updA {β : Type} {k : Nat} {v : β} {l : List (Nat × β)}
    {x : Nat × β} (h : x ∈ updA k v l) : x = (k, v) ∨ x ∈ l := by
  induction l with
  | nil =>
    simp [updA] at h
    exact Or.inl h
  | cons hd t ih =>
    obtain ⟨k2, v2⟩ := hd
    by_cases hk : k = k2
    · simp only [updA, if_pos hk] at h
      rcases List.mem_cons.mp h with h2 | h2
      · exact Or.inl h2
      · exact Or.inr (List.mem_cons_of_mem _ h2)
    · simp only [updA, if_neg hk] at h
      rcases List.mem_cons.mp h with h2 | h2
      · exact Or.inr (h2 ▸ List.mem_cons_self _ _)
      · rcases ih h2 with h3 | h3
        · exact Or.inl h3
        · exact Or.inr (List.mem_cons_of_mem _ h3)

theorem calc_preserves_WF {g : Nat → Nat} {fb cnb : Nat} {monoRand : Bool}
    {counter : Option Nat} {cgsb cstep : Nat} {random : Option Nat}
    {ts rnb : Nat} {st : Store} {i c r : Nat} {st1 : Store} {i1 : Nat}
    (hwf : Store.WF st) (hrnb : rnb = 74 - fb - cnb)
    (hcnt : ∀ c0, counter = some c0 → c0 < 2 ^ cnb)
    (hrnd : ∀ r0, random = some r0 → r0 < 2 ^ rnb)
    (h : calc_counter_and_random g fb cnb monoRand counter cgsb cstep random
        ts rnb st i = (.ok (c, r), st1, i1)) :
    Store.WF st1 := by
  obtain ⟨hcb, hrb⟩ := calc_ok_bounds hwf hrnb hcnt hrnd h
  have hst1 : st1 = updA fb (ts, updA cnb (c, r) (storeGet st fb).2) st := by
    simp only [calc_counter_and_random] at h
    split at h
    · split at h
      · rename_i c2 r2 i3 heq
        simp only [Prod.mk.injEq, Except.ok.injEq] at h
        obtain ⟨⟨hc1, hr1⟩, hsteq, -⟩ := h
        subst hc1
        subst hr1
        exact hsteq.symm
      · simp at h
    · simp at h
  subst hst1
  intro fb2 T2 cs2 hmem cb2 c2 r2 hmem2
  rcases mem_updA hmem with heq | hold
  · simp only [Prod.mk.injEq] at heq
    obtain ⟨he1, he2, he3⟩ := heq
    subst he1
    subst he3
    rcases mem_updA hmem2 with heq2 | hold2
    · simp only [Prod.mk.injEq] at heq2
      obtain ⟨hf1, hf2, hf3⟩ := heq2
      subst hf1
      subst hf2
      subst hf3
      rw [← hrnb]
      exact ⟨hcb, hrb⟩
    · cases hs : lookupA fb2 st with
      | none =>
        rw [storeGet, hs] at hold2
        simp at hold2
      | some tc =>
        obtain ⟨T0, cs0⟩ := tc
        rw [storeGet, hs] at hold2
        exact hwf fb2 T0 cs0 (mem_of_lookupA hs) cb2 c2 r2 hold2
  · exact hwf fb2 T2 cs2 hold cb2 c2 r2 hmem2

theorem compose_uuid_preserves_WF {g : Nat → Nat} {nowNs : Int}
    {timestamp : TsInput} {fb : Nat} {counter : Option Nat}
    {cgsb cnb cstep : Nat} {useRec monoRand : Bool} {random : Option Nat}
    {st : Store} {i : Nat} {u : Nat} {st2 : Store} {i2 : Nat}
    (hwf : Store.WF st)
    (h : compose_uuid g nowNs timestamp fb counter cgsb cnb cstep useRec
        monoRand random st i = (.ok u, st2, i2)) :
    Store.WF st2 := by
  simp only [compose_uuid] at h
  generalize hv : validate_config timestamp fb counter cgsb cnb cstep useRec
    monoRand random = v at h
  cases v with
  | error e2 => simp at h
  | ok u0 =>
    cases u0
    obtain ⟨hfb, h74, hcnt, hrnd, -⟩ := validate_ok_facts hv
    generalize hn : normalize_timestamp nowNs timestamp = nres at h
    cases nres with
    | error e2 => simp at h
    | ok ts12 =>
      cases timestamp
      case absent =>
        dsimp only at h
        obtain ⟨res, st1, i1, hq⟩ : ∃ res st1 i1,
            calc_counter_and_random g fb cnb monoRand counter cgsb cstep
              random (ts12.toNat >>> (12 - fb)) (74 - fb - cnb) st i
              = (res, st1, i1) := ⟨_, _, _, rfl⟩
        rw [hq] at h
        rcases res with e3 | v
        · simp at h
        · obtain ⟨c, r⟩ := v
          simp only [Prod.mk.injEq, Except.ok.injEq] at h
          obtain ⟨-, hst2, -⟩ := h
          subst hst2
          exact calc_preserves_WF hwf rfl hcnt hrnd hq
      all_goals
        dsimp only at h
      all_goals
        rcases counter with _ | c0 <;> rcases random with _ | r0 <;>
          simp only [init_counter, getrandbits, Prod.mk.injEq,
            Except.ok.injEq] at h <;>
          obtain ⟨-, hst2, -⟩ := h <;>
          subst hst2 <;>
          exact hwf

theorem calc_error_preserves_store {g : Nat → Nat} {fb cnb : Nat}
    {monoRand : Bool} {counter : Option Nat} {cgsb cstep : Nat}
    {random : Option Nat} {ts rnb : Nat} {st : Store} {i : Nat} {e : Err}
    (h : (calc_counter_and_random g fb cnb monoRand counter cgsb cstep random
        ts rnb st i).1 = .error e) :
    (calc_counter_and_random g fb cnb monoRand counter cgsb cstep random
        ts rnb st i).2.1 = st := by
  by_cases hts : (storeGet st fb).1 ≤ ts
  · simp only [calc_counter_and_random, if_pos hts] at h ⊢
    generalize (if monoRand = true then
        counter_method2 g cnb counter cgsb cstep random rnb
          (calcPrior fb cnb ts st) i
      else
        counter_method1 g cnb counter cgsb cstep random rnb
          ((calcPrior fb cnb ts st).map Prod.fst) i) = resi at h ⊢
    obtain ⟨res, i2⟩ := resi
    rcases res with e2 | v
    · rfl
    · obtain ⟨c2, r2⟩ := v
      simp at h
  · simp only [calc_counter_and_random, if_neg hts]

/-! ### Monotonicity of the counter strategies on a surviving tick -/

theorem counter_method1_mono {g : Nat → Nat} {cnb : Nat}
    {counter : Option Nat} {cgsb cstep : Nat} {random : Option Nat}
    {rnb lc i c r i1 : Nat}
    (h : counter_method1 g cnb counter cgsb cstep random rnb (some lc) i
      = (.ok (c, r), i1)) :
    lc ≤ c ∧ ((counter = none → 0 < cstep) → lc < c) := by
  rcases counter with _ | c0
  · by_cases hlt : lc + cstep < 2 ^ cnb
    · rcases random with _ | r0 <;>
        simp only [counter_method1, increment_counter, if_pos hlt,
          getrandbits, Prod.mk.injEq, Except.ok.injEq] at h <;>
        obtain ⟨⟨hc1, hr1⟩, -⟩ := h <;>
        subst hc1 <;>
        exact ⟨Nat.le_add_right _ _, fun hs => by have := hs rfl; omega⟩
    · rcases random with _ | r0 <;>
        simp only [counter_method1, increment_counter, if_neg hlt,
          getrandbits] at h <;>
        simp at h
  · by_cases hlt : lc < c0
    · rcases random with _ | r0 <;>
        simp only [counter_method1, if_pos hlt, getrandbits,
          Prod.mk.injEq, Except.ok.injEq] at h <;>
        obtain ⟨⟨hc1, hr1⟩, -⟩ := h <;>
        subst hc1 <;>
        exact ⟨Nat.le_of_lt hlt, fun _ => hlt⟩
    · rcases random with _ | r0 <;>
        simp only [counter_method1, if_neg hlt, getrandbits] at h <;>
        simp at h

theorem counter_method2_mono {g : Nat → Nat} {cnb : Nat}
    {counter : Option Nat} {cgsb cstep : Nat} {random : Option Nat}
    {rnb lc lr i c r i1 : Nat}
    (h : counter_method2 g cnb counter cgsb cstep random rnb
        (some (lc, lr)) i = (.ok (c, r), i1)) :
    lc ≤ c ∧
    (counter = none → 0 < cstep → (lc < c ∨ (lc = c ∧ lr < r))) := by
  rcases random with _ | r0
  · rcases counter with _ | c0
    · by_cases h2 : lr + 1 + g i % 2 ^ rnb < 2 ^ rnb
      · simp only [counter_method2, getrandbits, if_pos h2, Prod.mk.injEq,
          Except.ok.injEq] at h
        obtain ⟨⟨hc1, hr1⟩, -⟩ := h
        subst hc1
        subst hr1
        exact ⟨le_refl _, fun _ _ => Or.inr ⟨rfl, by omega⟩⟩
      · by_cases h3 : cnb = 0
        · simp only [counter_method2, getrandbits, if_neg h2, if_pos h3]
            at h
          simp at h
        · by_cases h4 : lc + cstep < 2 ^ cnb
          · simp only [counter_method2, getrandbits, increment_counter,
              if_neg h2, if_neg h3, if_pos h4, Prod.mk.injEq,
              Except.ok.injEq] at h
            obtain ⟨⟨hc1, hr1⟩, -⟩ := h
            subst hc1
            exact ⟨Nat.le_add_right _ _, fun _ hs => Or.inl (by omega)⟩
          · simp only [counter_method2, getrandbits, increment_counter,
              if_neg h2, if_neg h3, if_neg h4] at h
            simp at h
    · by_cases h2 : lc ≤ c0
      · by_cases h3 : lc < c0
        · simp only [counter_method2, if_pos h2, if_pos h3, getrandbits,
            Prod.mk.injEq, Except.ok.injEq] at h
          obtain ⟨⟨hc1, hr1⟩, -⟩ := h
          subst hc1
          exact ⟨h2, fun hx => by cases hx⟩
        · by_cases h4 : lr < 2 ^ rnb
          · simp only [counter_method2, if_pos h2, if_neg h3, randrange,
              if_pos h4, Prod.mk.injEq, Except.ok.injEq] at h
            obtain ⟨⟨hc1, hr1⟩, -⟩ := h
            subst hc1
            exact ⟨h2, fun hx => by cases hx⟩
          · simp only [counter_method2, if_pos h2, if_neg h3, randrange,
              if_neg h4] at h
            simp at h
      · simp only [counter_method2, if_neg h2] at h
        simp at h
  · rcases counter with _ | c0
    · by_cases h2 : lr < r0
      · simp only [counter_method2, if_pos h2, Prod.mk.injEq,
          Except.ok.injEq] at h
        obtain ⟨⟨hc1, hr1⟩, -⟩ := h
        subst hc1
        subst hr1
        exact ⟨le_refl _, fun _ _ => Or.inr ⟨rfl, h2⟩⟩
      · simp only [counter_method2, if_neg h2] at h
        simp at h
    · by_cases h2 : lc ≠ c0
      · by_cases h3 : lc < c0
        · simp only [counter_method2, if_pos h2, if_pos h3, Prod.mk.injEq,
            Except.ok.injEq] at h
          obtain ⟨⟨hc1, hr1⟩, -⟩ := h
          subst hc1
          exact ⟨Nat.le_of_lt h3, fun hx => by cases hx⟩
        · simp only [counter_method2, if_pos h2, if_neg h3] at h
          simp at h
      · by_cases h3 : lr < r0
        · simp only [counter_method2, if_neg h2, if_pos h3, Prod.mk.injEq,
            Except.ok.injEq] at h
          obtain ⟨⟨hc1, hr1⟩, -⟩ := h
          subst hc1
          push_neg at h2
          exact ⟨Nat.le_of_eq h2, fun hx => by cases hx⟩
        · simp only [counter_method2, if_neg h2, if_neg h3] at h
          simp at h

/-- C1 (amended): for a fixed (fraction_bits, counter_bits), on a Generate
step that does not pin a timestamp and succeeds against a stored entry
(T, (lc, lr)): the stored tick T never exceeds the new tick; the new
(counter, random) pair becomes the stored entry for the new tick (so the
produced (tick, counter) pairs are non-decreasing lexicographically across
a call sequence); when the tick is unchanged the counter never decreases;
and the (counter, random) pair strictly increases lexicographically
provided, under Method 1, counter_step is positive when the counter is not
pinned, and, under Method 2, the counter is not pinned and counter_step is
positive.  The unamended claim (strict increase for every successful
same-tick call) is refuted by calc_same_tick_repeat_cex: with Method 2 and
a pinned counter equal to the stored one, the random draw from
[last_random, 2 ^ random_bits) may reproduce the stored pair exactly. -/
theorem calc_step_monotonic {g : Nat → Nat} {fb cnb : Nat} {monoRand : Bool}
    {counter : Option Nat} {cgsb cstep : Nat} {random : Option Nat}
    {ts rnb : Nat} {st : Store} {i c r : Nat} {st1 : Store} {i1 : Nat}
    {T : Nat} {cs : CMap} {lc lr : Nat}
    (hst : storeGet st fb = (T, cs))
    (he : lookupA cnb cs = some (lc, lr))
    (h : calc_counter_and_random g fb cnb monoRand counter cgsb cstep random
        ts rnb st i = (.ok (c, r), st1, i1)) :
    T ≤ ts ∧
    storeGet st1 fb = (ts, updA cnb (c, r) cs) ∧
    (T = ts → lc ≤ c) ∧
    (T = ts → monoRand = false → (counter = none → 0 < cstep) → lc < c) ∧
    (T = ts → monoRand = true → counter = none → 0 < cstep →
      lc < c ∨ (lc = c ∧ lr < r)) := by
  simp only [calc_counter_and_random, hst] at h
  split at h
  · rename_i hts
    split at h
    · rename_i c2 r2 i2 heq
      simp only [Prod.mk.injEq, Except.ok.injEq] at h
      obtain ⟨⟨hc1, hr1⟩, hst1, -⟩ := h
      subst hc1
      subst hr1
      subst hst1
      have hp : T = ts → calcPrior fb cnb ts st = some (lc, lr) := by
        intro hT
        simp only [calcPrior, hst]
        rw [if_neg]
        · exact he
        · push_neg
          exact ⟨by omega, by simp [he]⟩
      refine ⟨hts, ?_, ?_, ?_, ?_⟩
      · rw [storeGet, lookupA_updA_self]
        rfl
      · intro hT
        cases monoRand
        · rw [if_neg (by simp)] at heq
          rw [hp hT] at heq
          simp only [Option.map_some'] at heq
          exact (counter_method1_mono heq).1
        · rw [if_pos rfl] at heq
          rw [hp hT] at heq
          exact (counter_method2_mono heq).1
      · intro hT hmono hcs
        subst hmono
        rw [if_neg (by simp)] at heq
        rw [hp hT] at heq
        simp only [Option.map_some'] at heq
        exact (counter_method1_mono heq).2 hcs
      · intro hT hmono hcn hcs
        subst hmono
        rw [if_pos rfl] at heq
        rw [hp hT] at heq
        exact (counter_method2_mono heq).2 hcn hcs
    · simp at h
  · simp at h

/-! ### Claim theorems -/

/-- C2: on a generation without an explicit timestamp the prior
(last_counter, last_random) pair is supplied to the counter strategy exactly
when the newly computed timestamp-with-fraction equals the stored one and
the requested counter_bits has a prior entry for that tick; in every other
case both are treated as absent.  The code's condition (stored tick strictly
older, or no entry) coincides with the spec's (stored tick equal and an
entry exists) whenever the stored tick does not exceed the new one, which
the engine asserts before consulting the store. -/
theorem calc_prior_matches_spec (fb cnb ts : Nat) (st : Store)
    (h : (storeGet st fb).1 ≤ ts) :
    calcPrior fb cnb ts st = specPrior fb cnb ts st := by
  simp only [calcPrior, specPrior]
  rcases Nat.lt_or_ge (storeGet st fb).1 ts with hlt | hge
  · rw [if_pos (Or.inl hlt), if_neg (by omega)]
  · have heq : (storeGet st fb).1 = ts := Nat.le_antisymm h hge
    rw [if_pos heq]
    cases hn : lookupA cnb (storeGet st fb).2 with
    | none => rw [if_pos (Or.inr rfl)]
    | some v =>
      rw [if_neg]
      push_neg
      exact ⟨by omega, by simp⟩

theorem calc_prior_matches_spec_witness :
    (storeGet [(0, (5, [(12, (7, 3))]))] 0).1 ≤ 5 ∧
    calcPrior 0 12 5 [(0, (5, [(12, (7, 3))]))]
      = specPrior 0 12 5 [(0, (5, [(12, (7, 3))]))] :=
  ⟨by decide, calc_prior_matches_spec 0 12 5 _ (by decide)⟩

/-- C5: for every timestamp-with-fraction, counter and random within their
configured widths, the composer packs them into the 74-bit payload
(timestamp <<< (74 - fraction_bits)) ||| (counter <<< random_bits) ||| random,
re-splits that value at the fixed boundaries into unix_ts_ms (the bits above
74), rand_a (bits 62-73) and rand_b (bits 0-61), and the final 128-bit value
carries the version nibble 0111 and the variant bits 10 at their fixed
positions. -/
theorem compose_data_packs_and_splits {fb cnb rnb tsF c r : Nat}
    (h74 : fb + cnb + rnb = 74) (hts : tsF < 2 ^ (48 + fb))
    (hc : c < 2 ^ cnb) (hr : r < 2 ^ rnb) :
    unix_ts_ms (compose_data tsF fb c rnb r)
        = ((tsF <<< (74 - fb)) ||| (c <<< rnb) ||| r) >>> 74 ∧
    rand_a (compose_data tsF fb c rnb r)
        = (((tsF <<< (74 - fb)) ||| (c <<< rnb) ||| r) >>> 62) % 2 ^ 12 ∧
    rand_b (compose_data tsF fb c rnb r)
        = ((tsF <<< (74 - fb)) ||| (c <<< rnb) ||| r) % 2 ^ 62 ∧
    compose_data tsF fb c rnb r >>> 76 &&& 15 = 7 ∧
    compose_data tsF fb c rnb r >>> 62 &&& 3 = 2 := by
  obtain ⟨he, hlt⟩ := compose_data_eq h74 hts hc hr
  have hB : (tsF * 2 ^ (cnb + rnb) + c * 2 ^ rnb + r) / 2 ^ 62 % 2 ^ 12
      < 2 ^ 12 := Nat.mod_lt _ (by positivity)
  have hC : (tsF * 2 ^ (cnb + rnb) + c * 2 ^ rnb + r) % 2 ^ 62 < 2 ^ 62 :=
    Nat.mod_lt _ (by positivity)
  have hor : (tsF <<< (74 - fb)) ||| (c <<< rnb) ||| r
      = tsF * 2 ^ (cnb + rnb) + c * 2 ^ rnb + r :=
    payload_or_eq_add h74 hc hr
  refine ⟨?_, ?_, ?_, ?_, ?_⟩
  · rw [he, unix_ts_ms_construct hB hC, hor, Nat.shiftRight_eq_div_pow]
  · rw [he, rand_a_construct hB hC, hor, Nat.shiftRight_eq_div_pow]
  · rw [he, rand_b_construct hB hC, hor]
  · rw [he]
    exact version_construct hB hC
  · rw [he]
    exact variant_construct hB hC

theorem compose_data_packs_and_splits_witness :
    (0 + 12 + 62 = 74) ∧ (5 : Nat) < 2 ^ (48 + 0) ∧ (7 : Nat) < 2 ^ 12 ∧
    (3 : Nat) < 2 ^ 62 ∧
    (unix_ts_ms (compose_data 5 0 7 62 3)
        = ((5 <<< (74 - 0)) ||| (7 <<< 62) ||| 3) >>> 74 ∧
      rand_a (compose_data 5 0 7 62 3)
        = (((5 <<< (74 - 0)) ||| (7 <<< 62) ||| 3) >>> 62) % 2 ^ 12 ∧
      rand_b (compose_data 5 0 7 62 3)
        = ((5 <<< (74 - 0)) ||| (7 <<< 62) ||| 3) % 2 ^ 62 ∧
      compose_data 5 0 7 62 3 >>> 76 &&& 15 = 7 ∧
      compose_data 5 0 7 62 3 >>> 62 &&& 3 = 2) :=
  ⟨by norm_num, by norm_num, by norm_num, by norm_num,
    @compose_data_packs_and_splits 0 12 62 5 7 3 (by norm_num) (by norm_num)
      (by norm_num) (by norm_num)⟩

/-- C9: for an integer nanoseconds-since-epoch input the normalizer returns
(ns <<< 12) fdiv 1000000 whenever that value is in range (and whatever it
returns equals that value); an input of an unsupported shape fails with
InvalidTimestampType; and every returned value is nonnegative and fits in
60 bits (48 millisecond bits plus 12 fraction bits). -/
theorem normalize_timestamp_spec (nowNs : Int) :
    (∀ ns : Int,
      0 ≤ Int.fdiv (ns * 2 ^ 12) NS_IN_MS →
      Int.fdiv (ns * 2 ^ 12) NS_IN_MS < 2 ^ 60 →
      normalize_timestamp nowNs (.nanos ns)
        = .ok (Int.fdiv (ns * 2 ^ 12) NS_IN_MS)) ∧
    (∀ ns v, normalize_timestamp nowNs (.nanos ns) = .ok v →
      v = Int.fdiv (ns * 2 ^ 12) NS_IN_MS) ∧
    normalize_timestamp nowNs .other = .error .invalidTimestampType ∧
    (∀ t v, normalize_timestamp nowNs t = .ok v → 0 ≤ v ∧ v < 2 ^ 60) := by
  refine ⟨?_, ?_, rfl, fun t v h => normalize_ok_bounds h⟩
  · intro ns h0 h1
    simp only [normalize_timestamp, check60]
    rw [if_pos ⟨h0, h1⟩]
  · intro ns v h
    simp only [normalize_timestamp, check60] at h
    split at h
    · cases h
      rfl
    · cases h

theorem normalize_timestamp_spec_witness :
    normalize_timestamp 0 (.nanos 5000000)
      = .ok (Int.fdiv (5000000 * 2 ^ 12) NS_IN_MS) ∧
    (0 : Int) ≤ Int.fdiv (5000000 * 2 ^ 12) NS_IN_MS ∧
    Int.fdiv (5000000 * 2 ^ 12) NS_IN_MS < 2 ^ 60 :=
  ⟨(normalize_timestamp_spec 0).1 5000000 (by decide) (by decide),
    by decide, by decide⟩

/-- C6: under Method 1, with a prior counter and no pinned counter the next
counter is last_counter + counter_step, and the call fails with
CounterOverflow when that sum reaches 2 ^ counter_bits; with no prior
counter the counter is seeded with counter_guard_seed_bits leading zero bits
followed by counter_bits - counter_guard_seed_bits random bits; with a
pinned counter and a prior value the call requires last_counter < counter
and otherwise fails with MonotonicityViolation.  The random field is the
pinned value when supplied, or a fresh draw of random_bits bits. -/
theorem counter_method1_spec (g : Nat → Nat)
    (cnb cgsb cstep rnb i : Nat) (random : Option Nat) :
    (∀ lc, lc + cstep < 2 ^ cnb →
      (counter_method1 g cnb none cgsb cstep random rnb (some lc) i).1
        = .ok (lc + cstep, random.getD (g i % 2 ^ rnb))) ∧
    (∀ lc, 2 ^ cnb ≤ lc + cstep →
      (counter_method1 g cnb none cgsb cstep random rnb (some lc) i).1
        = .error .counterOverflow) ∧
    ((counter_method1 g cnb none cgsb cstep random rnb none i).1
        = .ok (g i % 2 ^ (cnb - cgsb), random.getD (g (i + 1) % 2 ^ rnb)) ∧
      g i % 2 ^ (cnb - cgsb) < 2 ^ (cnb - cgsb)) ∧
    (∀ c0 lc, lc < c0 →
      (counter_method1 g cnb (some c0) cgsb cstep random rnb (some lc) i).1
        = .ok (c0, random.getD (g i % 2 ^ rnb))) ∧
    (∀ c0 lc, c0 ≤ lc →
      (counter_method1 g cnb (some c0) cgsb cstep random rnb (some lc) i).1
        = .error .monotonicityViolation) := by
  refine ⟨?_, ?_, ⟨?_, Nat.mod_lt _ (Nat.two_pow_pos _)⟩, ?_, ?_⟩
  · intro lc hlt
    cases random <;>
      simp [counter_method1, increment_counter, getrandbits, if_pos hlt]
  · intro lc hle
    cases random <;>
      simp [counter_method1, increment_counter, getrandbits,
        if_neg (by omega : ¬ lc + cstep < 2 ^ cnb)]
  · cases random <;>
      simp [counter_method1, increment_counter, init_counter, getrandbits]
  · intro c0 lc hlt
    cases random <;>
      simp [counter_method1, getrandbits, if_pos hlt]
  · intro c0 lc hle
    cases random <;>
      simp [counter_method1, getrandbits,
        if_neg (by omega : ¬ lc < c0)]

theorem counter_method1_spec_witness :
    (7 : Nat) + 1 < 2 ^ 12 ∧
    (counter_method1 (fun _ => 0) 12 none 0 1 none 62 (some 7) 0).1
      = .ok (7 + 1, (none : Option Nat).getD ((fun _ => (0 : Nat)) 0 % 2 ^ 62)) :=
  ⟨by norm_num,
    (counter_method1_spec (fun _ => 0) 12 0 1 62 0 none).1 7 (by norm_num)⟩

/-- C7: under Method 2 with neither counter nor random pinned and a prior
pair for the current tick, the fresh draw is below 2 ^ random_bits and the
candidate is last_random + 1 + draw; if the candidate fits in random_bits
bits the result is (last_counter, candidate); otherwise the call fails with
MissingCounterGuard when counter_bits = 0, and otherwise the counter is
advanced by the Method-1 increment rule (failing with CounterOverflow when
it overflows) and the candidate is truncated to its low random_bits bits. -/
theorem counter_method2_unpinned_spec (g : Nat → Nat)
    (cnb cgsb cstep rnb i lc lr : Nat) :
    g i % 2 ^ rnb < 2 ^ rnb ∧
    (lr + 1 + g i % 2 ^ rnb < 2 ^ rnb →
      counter_method2 g cnb none cgsb cstep none rnb (some (lc, lr)) i
        = (.ok (lc, lr + 1 + g i % 2 ^ rnb), i + 1)) ∧
    (2 ^ rnb ≤ lr + 1 + g i % 2 ^ rnb → cnb = 0 →
      counter_method2 g cnb none cgsb cstep none rnb (some (lc, lr)) i
        = (.error .missingCounterGuard, i + 1)) ∧
    (2 ^ rnb ≤ lr + 1 + g i % 2 ^ rnb → cnb ≠ 0 → lc + cstep < 2 ^ cnb →
      counter_method2 g cnb none cgsb cstep none rnb (some (lc, lr)) i
        = (.ok (lc + cstep, (lr + 1 + g i % 2 ^ rnb) % 2 ^ rnb), i + 1)) ∧
    (2 ^ rnb ≤ lr + 1 + g i % 2 ^ rnb → cnb ≠ 0 → 2 ^ cnb ≤ lc + cstep →
      counter_method2 g cnb none cgsb cstep none rnb (some (lc, lr)) i
        = (.error .counterOverflow, i + 1)) := by
  refine ⟨Nat.mod_lt _ (Nat.two_pow_pos _), ?_, ?_, ?_, ?_⟩
  · intro h2
    simp [counter_method2, getrandbits, if_pos h2]
  · intro h2 h3
    simp [counter_method2, getrandbits,
      if_neg (by omega : ¬ lr + 1 + g i % 2 ^ rnb < 2 ^ rnb), h3]
  · intro h2 h3 h4
    simp only [counter_method2, getrandbits, increment_counter,
      if_neg (by omega : ¬ lr + 1 + g i % 2 ^ rnb < 2 ^ rnb),
      if_neg h3, if_pos h4, Nat.and_pow_two_sub_one_eq_mod]
  · intro h2 h3 h4
    simp only [counter_method2, getrandbits, increment_counter,
      if_neg (by omega : ¬ lr + 1 + g i % 2 ^ rnb < 2 ^ rnb),
      if_neg h3, if_neg (by omega : ¬ lc + cstep < 2 ^ cnb)]

theorem calc_step_monotonic_witness :
    storeGet [(0, (5, [(12, (7, 3))]))] 0 = (5, [(12, (7, 3))]) ∧
    lookupA 12 [((12 : Nat), ((7 : Nat), (3 : Nat)))] = some (7, 3) ∧
    ((5 : Nat) ≤ 5 ∧
      storeGet [(0, (5, [(12, (8, 0))]))] 0
        = (5, updA 12 (8, 0) [(12, (7, 3))]) ∧
      ((5 : Nat) = 5 → (7 : Nat) ≤ 8) ∧
      ((5 : Nat) = 5 → false = false →
        ((none : Option Nat) = none → 0 < 1) → (7 : Nat) < 8) ∧
      ((5 : Nat) = 5 → false = true → (none : Option Nat) = none → 0 < 1 →
        (7 : Nat) < 8 ∨ ((7 : Nat) = 8 ∧ (3 : Nat) < 0))) :=
  ⟨by decide, by decide,
    @calc_step_monotonic (fun _ => 0) 0 12 false none 0 1 none 5 62
      [(0, (5, [(12, (7, 3))]))] 0 8 0 [(0, (5, [(12, (8, 0))]))] 1 5
      [(12, (7, 3))] 7 3 (by decide) (by decide) (by decide)⟩

/-- C1 counterexample: a Generate call without an explicit timestamp, hitting
the same tick (5) as the stored state, under Method 2 with the counter
pinned to the stored counter 7, succeeds and stores the identical pair
(7, 3) again (the random draw from [last_random, 2 ^ random_bits) returned
last_random itself), so neither the counter nor the random field strictly
increased on a successful same-tick call. -/
theorem calc_same_tick_repeat_cex :
    compose_uuid (fun _ => 0) 5000000 .absent 0 (some 7) 0 12 1 true true
        none [(0, (5, [(12, (7, 3))]))] 0
      = (.ok (compose_data 5 0 7 62 3), [(0, (5, [(12, (7, 3))]))], 1) ∧
    storeGet [(0, (5, [(12, (7, 3))]))] 0 = (5, [(12, (7, 3))]) ∧
    lookupA 12 [((12 : Nat), ((7 : Nat), (3 : Nat)))] = some (7, 3) := by
  refine ⟨by decide, by decide, by decide⟩

theorem counter_method2_unpinned_spec_witness :
    (2 : Nat) ^ 2 ≤ 3 + 1 + (fun _ => (2 : Nat)) 0 % 2 ^ 2 ∧ (60 : Nat) ≠ 0 ∧
    (3 : Nat) + 1 < 2 ^ 60 ∧
    counter_method2 (fun _ => 2) 60 none 0 1 none 2 (some (3, 3)) 0
      = (.ok (3 + 1, (3 + 1 + (fun _ => (2 : Nat)) 0 % 2 ^ 2) % 2 ^ 2), 0 + 1) :=
  ⟨by norm_num, by norm_num, by norm_num,
    (counter_method2_unpinned_spec (fun _ => 2) 60 0 1 2 0 3 3).2.2.2.1
      (by norm_num) (by norm_num) (by norm_num)⟩

/-- C3: whenever a Generate call fails for any reason (configuration
rejection, monotonicity violation, counter overflow, missing counter guard,
or timestamp error), the store is left exactly in its prior state: its
per-fraction_bits tick and its per-counter_bits entries are written only
when the call succeeds. -/
theorem compose_uuid_error_preserves_store {g : Nat → Nat} {nowNs : Int}
    {timestamp : TsInput} {fb : Nat} {counter : Option Nat}
    {cgsb cnb cstep : Nat} {useRec monoRand : Bool} {random : Option Nat}
    {st : Store} {i : Nat} {e : Err} {st2 : Store} {i2 : Nat}
    (h : compose_uuid g nowNs timestamp fb counter cgsb cnb cstep useRec
        monoRand random st i = (.error e, st2, i2)) :
    st2 = st := by
  simp only [compose_uuid] at h
  generalize validate_config timestamp fb counter cgsb cnb cstep useRec
    monoRand random = v at h
  cases v with
  | error e2 =>
    simp only [Prod.mk.injEq] at h
    exact h.2.1.symm
  | ok u0 =>
    cases u0
    generalize normalize_timestamp nowNs timestamp = nres at h
    cases nres with
    | error e2 =>
      simp only [Prod.mk.injEq] at h
      exact h.2.1.symm
    | ok ts12 =>
      cases timestamp
      case absent =>
        dsimp only at h
        obtain ⟨res, st1, i1, hq⟩ : ∃ res st1 i1,
            calc_counter_and_random g fb cnb monoRand counter cgsb cstep
              random (ts12.toNat >>> (12 - fb)) (74 - fb - cnb) st i
              = (res, st1, i1) := ⟨_, _, _, rfl⟩
        rw [hq] at h
        rcases res with e3 | v
        · have hpres := calc_error_preserves_store
            (show (calc_counter_and_random g fb cnb monoRand counter cgsb
              cstep random (ts12.toNat >>> (12 - fb)) (74 - fb - cnb) st
              i).1 = .error e3 from by rw [hq])
          rw [hq] at hpres
          simp only [Prod.mk.injEq] at hpres
          simp at h
          rw [← h.2.1]
          exact hpres
        · obtain ⟨c, r⟩ := v
          simp at h
      all_goals simp at h

theorem compose_uuid_error_preserves_store_witness :
    compose_uuid (fun _ => 0) 0 .absent 13 none 0 0 1 true false none [] 0
      = (.error (.configError .invalidFractionBits), [], 0) ∧
    ([] : Store) = [] :=
  ⟨by decide,
    @compose_uuid_error_preserves_store (fun _ => 0) 0 .absent 13 none 0 0 1
      true false none [] 0 (.configError .invalidFractionBits) [] 0
      (by decide)⟩

/-- C8: with monotonic_random enabled, an explicit timestamp and no explicit
random value, Generate fails with a ConfigError before any state is touched
(the store and the random stream are returned untouched): in
monotonic-random mode an explicit timestamp must be accompanied by an
explicitly supplied random value. -/
theorem mono_random_requires_random (g : Nat → Nat) (nowNs : Int)
    (timestamp : TsInput) (fb : Nat) (counter : Option Nat)
    (cgsb cnb cstep : Nat) (useRec : Bool) (st : Store) (i : Nat)
    (hts : timestamp ≠ .absent) :
    ∃ reason, compose_uuid g nowNs timestamp fb counter cgsb cnb cstep useRec
        true none st i = (.error (.configError reason), st, i) := by
  have hv : ∃ reason, validate_config timestamp fb counter cgsb cnb cstep
      useRec true none = .error (.configError reason) := by
    by_cases hfb : fb ≤ 12
    · by_cases hcb : cnb ≤ 74 - fb
      · refine ⟨.randomRequired, ?_⟩
        simp [validate_config, ensure, seqE, hfb, hcb, hts]
      · refine ⟨.invalidCounterBitsMonoGuard, ?_⟩
        simp [validate_config, ensure, seqE, hfb, hcb]
    · exact ⟨.invalidFractionBits, by
        simp [validate_config, ensure, seqE, hfb]⟩
  obtain ⟨reason, hv⟩ := hv
  exact ⟨reason, by simp only [compose_uuid, hv]⟩

theorem mono_random_requires_random_witness :
    TsInput.nanos 5000000 ≠ TsInput.absent ∧
    ∃ reason, compose_uuid (fun _ => 0) 0 (.nanos 5000000) 0 none 0 0 1 true
        true none [] 0 = (.error (.configError reason), [], 0) :=
  ⟨by decide, mono_random_requires_random (fun _ => 0) 0 (.nanos 5000000) 0
    none 0 0 1 true [] 0 (by decide)⟩

/-- C10: with the counter unset, counter_bits positive and an explicit
timestamp, Generate fails at validation with the ConfigError stating that
the counter is required when a timestamp is provided, even when every other
bound is satisfied; and a successful call with an explicit timestamp and
positive counter_bits always has the counter explicitly pinned. -/
theorem explicit_timestamp_requires_counter (g : Nat → Nat) (nowNs : Int)
    (timestamp : TsInput) (fb : Nat) (cgsb cnb cstep : Nat)
    (useRec monoRand : Bool) (random : Option Nat) (st : Store) (i : Nat)
    (hts : timestamp ≠ .absent) (hcnb : cnb ≠ 0) (hfb : fb ≤ 12)
    (hmono : monoRand = true → random ≠ none)
    (hbits : monoRand = false →
      (if useRec = true then 12 ≤ cnb ∧ cnb ≤ 42
       else 0 < cnb ∧ cnb ≤ 74 - fb))
    (hgs : cgsb ≤ cnb) :
    compose_uuid g nowNs timestamp fb none cgsb cnb cstep useRec monoRand
        random st i = (.error (.configError .counterRequired), st, i) ∧
    (∀ counter u st2 i2,
      compose_uuid g nowNs timestamp fb counter cgsb cnb cstep useRec
          monoRand random st i = (.ok u, st2, i2) → counter ≠ none) := by
  constructor
  · have hv : validate_config timestamp fb none cgsb cnb cstep useRec
        monoRand random = .error (.configError .counterRequired) := by
      cases monoRand
      · have hb := hbits rfl
        cases useRec
        · have hb2 : 0 < cnb ∧ cnb ≤ 74 - fb := by simpa using hb
          simp [validate_config, ensure, seqE, hfb, hcnb, hgs, hts,
            hb2.1, hb2.2]
        · have hb2 : 12 ≤ cnb ∧ cnb ≤ 42 := by simpa using hb
          simp [validate_config, ensure, seqE, hfb, hcnb, hgs, hts,
            hb2.1, hb2.2]
      · obtain ⟨r, hr⟩ : ∃ r, random = some r := by
          cases hrr : random with
          | none => exact absurd hrr (hmono rfl)
          | some r => exact ⟨r, rfl⟩
        subst hr
        simp [validate_config, ensure, seqE, hfb, hcnb, hgs, hts]
    simp only [compose_uuid, hv]
  · intro counter u st2 i2 hok hcn
    subst hcn
    have hv : validate_config timestamp fb none cgsb cnb cstep useRec
        monoRand random = .ok () := by
      cases hvv : validate_config timestamp fb none cgsb cnb cstep useRec
          monoRand random with
      | ok u0 => cases u0; rfl
      | error e2 =>
        simp only [compose_uuid, hvv] at hok
        exact absurd hok (by simp)
    exact hts ((validate_ok_facts hv).2.2.2.2 rfl hcnb).1

theorem explicit_timestamp_requires_counter_witness :
    TsInput.nanos 5000000 ≠ TsInput.absent ∧ (12 : Nat) ≠ 0 ∧
    (0 : Nat) ≤ 12 ∧
    compose_uuid (fun _ => 0) 0 (.nanos 5000000) 0 none 0 12 1 true false
        none [] 0 = (.error (.configError .counterRequired), [], 0) :=
  ⟨by decide, by decide, by decide,
    (explicit_timestamp_requires_counter (fun _ => 0) 0 (.nanos 5000000) 0 0
      12 1 true false none [] 0 (by decide) (by decide) (by decide)
      (by decide) (by decide) (by decide)).1⟩

/-- C4: for every identifier produced by a successful Generate on a
width-consistent store, reconstructing the identifier from its three
hardware-aligned fields via the fields-based constructor
from_fields (unix_ts_ms, rand_a, rand_b) yields the bit-identical 128-bit
identifier (from_fields takes no store argument: it has no interaction with
the monotonic state).  Width-consistency (Store.WF) holds of the empty
initial store and is preserved by every successful call
(compose_uuid_preserves_WF) while failing calls leave the store untouched,
so it holds of every store the engine can reach. -/
theorem uuid_fields_roundtrip {g : Nat → Nat} {nowNs : Int}
    {timestamp : TsInput} {fb : Nat} {counter : Option Nat}
    {cgsb cnb cstep : Nat} {useRec monoRand : Bool} {random : Option Nat}
    {st : Store} {i : Nat} {u : Nat} {st2 : Store} {i2 : Nat}
    (hwf : Store.WF st)
    (h : compose_uuid g nowNs timestamp fb counter cgsb cnb cstep useRec
        monoRand random st i = (.ok u, st2, i2)) :
    from_fields (unix_ts_ms u) (rand_a u) (rand_b u) = .ok u := by
  simp only [compose_uuid] at h
  generalize hv : validate_config timestamp fb counter cgsb cnb cstep useRec
    monoRand random = v at h
  cases v with
  | error e2 => simp at h
  | ok u0 =>
    cases u0
    obtain ⟨hfb, h74, hcnt, hrnd, -⟩ := validate_ok_facts hv
    generalize hn : normalize_timestamp nowNs timestamp = nres at h
    cases nres with
    | error e2 => simp at h
    | ok ts12 =>
      obtain ⟨h0, h1⟩ := normalize_ok_bounds hn
      have htsF := tsF_bound h0 h1 hfb
      cases timestamp
      case absent =>
        dsimp only at h
        obtain ⟨res, st1, i1, hq⟩ : ∃ res st1 i1,
            calc_counter_and_random g fb cnb monoRand counter cgsb cstep
              random (ts12.toNat >>> (12 - fb)) (74 - fb - cnb) st i
              = (res, st1, i1) := ⟨_, _, _, rfl⟩
        rw [hq] at h
        rcases res with e3 | v
        · simp at h
        · obtain ⟨c, r⟩ := v
          obtain ⟨hcb, hrb⟩ := calc_ok_bounds hwf rfl hcnt hrnd hq
          simp only [Prod.mk.injEq, Except.ok.injEq] at h
          obtain ⟨hu, -⟩ := h
          subst hu
          exact compose_roundtrip (by omega) htsF hcb hrb
      all_goals
        dsimp only at h
      all_goals
        rcases counter with _ | c0 <;> rcases random with _ | r0 <;>
          simp only [init_counter, getrandbits, Prod.mk.injEq,
            Except.ok.injEq] at h <;>
          obtain ⟨hu, -⟩ := h <;>
          subst hu <;>
          refine @compose_roundtrip fb cnb (74 - fb - cnb) _ _ _ (by omega)
            htsF ?_ ?_ <;>
          first
          | exact hcnt _ rfl
          | exact hrnd _ rfl
          | exact Nat.mod_lt _ (Nat.two_pow_pos _)
          | exact lt_of_lt_of_le (Nat.mod_lt _ (Nat.two_pow_pos _))
              (Nat.pow_le_pow_right (by norm_num) (Nat.sub_le _ _))

theorem uuid_fields_roundtrip_witness :
    compose_uuid (fun _ => 37) 5000000 .absent 0 none 0 12 1 true false none
        [] 0 = (.ok (compose_data 5 0 37 62 37), [(0, (5, [(12, (37, 37))]))], 2) ∧
    from_fields (unix_ts_ms (compose_data 5 0 37 62 37))
      (rand_a (compose_data 5 0 37 62 37))
      (rand_b (compose_data 5 0 37 62 37)) = .ok (compose_data 5 0 37 62 37) :=
  ⟨by decide,
    @uuid_fields_roundtrip (fun _ => 37) 5000000 .absent 0 none 0 12 1 true
      false none [] 0 (compose_data 5 0 37 62 37)
      [(0, (5, [(12, (37, 37))]))] 2 (by intro fb T cs hmem; cases hmem)
      (by decide)⟩

end UUID7
